import Mathlib

/-!
# A shallow embedding of the cw-contracts ERC20 token ledger

This file embeds the ERC20-style fungible-token contract of the repository
(`src/erc20/src/state.rs`, `src/erc20/src/msg.rs`, `src/erc20/src/contract.rs`)
into Lean and proves properties of it.

Modelling conventions:
* `Amount` is, as in the source, a wrapper around a decimal string
  (`pub struct Amount(String)`); all arithmetic parses the strings first.
* Machine integers (`u128`) are modelled as `Nat` with explicit `2 ^ 128`
  bounds.  Rust's `str::parse::<u128>` rejects values `≥ 2 ^ 128`; the
  unchecked additions `a + b` (in `Amount::add`) and `total += amount_raw`
  (in `init`) panic on overflow (the workspace builds with overflow checks),
  which is modelled by the distinct error `Err.panicked`.
* The host key-value store is modelled by explicit association lists, one per
  storage bucket used by the contract (`balances`, `allowances`, plus the
  `constants` and `total_supply` singletons).  Bucket prefixes keep those key
  spaces disjoint in the real store, so separate fields are faithful.
  `Bucket::update` loads the current value (the `Default` value when the key
  is absent), applies the closure, and saves only on success.
* Addresses are opaque strings; `Api::canonical_address` (host-supplied
  validation, out of the engine's scope) is modelled as the identity.
* Each entry point threads the store explicitly and returns
  `Except Err Response × Store`: the second component is the store as the
  code itself leaves it, also on failure (any host-level transactional
  rollback is outside the embedded code).
-/

/-- Errors produced by the embedded code: `contract_err`, `dyn_contract_err`
(the two cosmwasm error constructors the contract uses) and `panicked` for
Rust panics (unchecked `u128` arithmetic overflow). -/
inductive Err : Type where
  | contractErr : String → Err
  | dynContractErr : String → Err
  | panicked : String → Err
deriving DecidableEq, Repr

deriving instance DecidableEq for Except

/-- `true` iff the result is `Except.error`. -/
def isErr {α : Type} : Except Err α → Bool
  | .error _ => true
  | .ok _ => false

/-- `true` iff the result is `Except.ok`. -/
def isOk {α : Type} : Except Err α → Bool
  | .error _ => false
  | .ok _ => true

/-- Numeric value of a list of decimal digit characters, most significant
first (the accumulator loop of Rust's `from_str_radix` at radix 10). -/
def digitsVal (ds : List Char) : Nat :=
  ds.foldl (fun a c => a * 10 + (c.toNat - 48)) 0

/-- Rust `str::parse::<u128>` (`u128::from_str`): an optional single leading
`+` (a leading `-` is rejected for unsigned types), then at least one decimal
digit, value below `2 ^ 128`; `none` models every `ParseIntError`. -/
def parseU128String (s : String) : Option Nat :=
  match s.data with
  | [] => none
  | c :: rest =>
    if c = '+' then
      if rest = [] then none
      else if rest.all Char.isDigit then
        if digitsVal rest < 2 ^ 128 then some (digitsVal rest) else none
      else none
    else
      if (c :: rest).all Char.isDigit then
        if digitsVal (c :: rest) < 2 ^ 128 then some (digitsVal (c :: rest)) else none
      else none

/-- `state.rs`: `pub struct Amount(String)` — a decimal-string amount. -/
structure Amount : Type where
  val : String
deriving DecidableEq, Repr

/-- `Amount::parse`: parse the string as `u128`, mapping any parse failure to
`contract_err("Error while parsing string to u128")`. -/
def Amount.parse (a : Amount) : Except Err Nat :=
  match parseU128String a.val with
  | some value => .ok value
  | none => .error (.contractErr "Error while parsing string to u128")

/-- `Amount::validate`: parse and discard the value. -/
def Amount.validate (a : Amount) : Except Err Unit :=
  match a.parse with
  | .ok _ => .ok ()
  | .error e => .error e

/-- Decimal digit character for `d < 10` (case split keeps it kernel-friendly). -/
def digitChar (d : Nat) : Char :=
  match d with
  | 0 => '0'
  | 1 => '1'
  | 2 => '2'
  | 3 => '3'
  | 4 => '4'
  | 5 => '5'
  | 6 => '6'
  | 7 => '7'
  | 8 => '8'
  | _ => '9'

/-- Fuel-driven decimal printer core (digits of `n` prepended to `acc`),
mirroring the structure of `Nat.toDigits`; `fuel ≥ 1 + log10 n` suffices. -/
def natToDigitsCore (fuel n : Nat) (acc : List Char) : List Char :=
  match fuel with
  | 0 => acc
  | fuel + 1 =>
    if n < 10 then digitChar n :: acc
    else natToDigitsCore fuel (n / 10) (digitChar (n % 10) :: acc)

/-- Decimal digit list of `n`, most significant first, no sign and no leading
zeros (the digits of Rust's `u128::to_string`). -/
def natToDigits (n : Nat) : List Char :=
  natToDigitsCore (n + 1) n []

/-- `impl From<u128> for Amount`: `Amount(val.to_string())`. -/
def Amount.ofNat (value : Nat) : Amount :=
  ⟨String.mk (natToDigits value)⟩

/-- `impl Default for Amount`: `Amount("0")`. -/
def Amount.default : Amount :=
  ⟨"0"⟩

/-- `Amount::subtract`: parse both, fail with the dynamic
"Insufficient funds" error when `self < other`, else return the difference. -/
def Amount.subtract (a other : Amount) : Except Err Amount :=
  match a.parse with
  | .error e => .error e
  | .ok here =>
    match other.parse with
    | .error e => .error e
    | .ok there =>
      if here < there then
        .error (.dynContractErr
          ("Insufficient funds: have=" ++ toString here ++ ", subtract=" ++ toString there))
      else
        .ok (Amount.ofNat (here - there))

/-- Unchecked Rust `u128` addition: panics when the mathematical sum does not
fit (the workspace builds with `overflow-checks`). -/
def u128Add (a b : Nat) : Except Err Nat :=
  if a + b < 2 ^ 128 then .ok (a + b)
  else .error (.panicked "attempt to add with overflow")

/-- `Amount::add`: parse both and add with plain (unchecked) `u128` `+`;
there is no typed overflow error. -/
def Amount.add (a other : Amount) : Except Err Amount :=
  match a.parse with
  | .error e => .error e
  | .ok here =>
    match other.parse with
    | .error e => .error e
    | .ok there =>
      match u128Add here there with
      | .error e => .error e
      | .ok total => .ok (Amount.ofNat total)

/-- `state.rs`: the `Constants` record (name, symbol, decimals). -/
structure Constants : Type where
  name : String
  symbol : String
  decimals : Nat
deriving DecidableEq, Repr

/-- Canonical addresses, opaque to the engine. -/
abbrev Addr : Type := String

/-- Association-list lookup (first matching key). -/
def lookupA {κ α : Type} [DecidableEq κ] : List (κ × α) → κ → Option α
  | [], _ => none
  | (k', v) :: rest, k => if k' = k then some v else lookupA rest k

/-- Association-list save: replace the first binding of the key, or append. -/
def insertA {κ α : Type} [DecidableEq κ] : List (κ × α) → κ → α → List (κ × α)
  | [], k, v => [(k, v)]
  | (k', v') :: rest, k, v =>
    if k' = k then (k, v) :: rest else (k', v') :: insertA rest k v

/-- The contract's storage: the `balances` bucket, the (owner-prefixed)
`allowances` bucket flattened to `(owner, spender)` keys, and the
`constants` / `total_supply` singletons. -/
structure Store : Type where
  balances : List (Addr × Amount)
  allowances : List ((Addr × Addr) × Amount)
  constants : Option Constants
  totalSupply : Option Amount
deriving DecidableEq, Repr

/-- The empty store (no key has ever been written). -/
def Store.empty : Store :=
  ⟨[], [], none, none⟩

/-- `Bucket::save` on the balances bucket. -/
def balancesSave (st : Store) (key : Addr) (v : Amount) : Store :=
  { st with balances := insertA st.balances key v }

/-- `Bucket::update` on the balances bucket: load (default `"0"` when
absent), apply the closure, save only on success. -/
def balancesUpdate (st : Store) (key : Addr) (action : Amount → Except Err Amount) :
    Except Err Amount × Store :=
  match action ((lookupA st.balances key).getD Amount.default) with
  | .ok out => (.ok out, balancesSave st key out)
  | .error e => (.error e, st)

/-- `Bucket::save` on the allowances bucket of `owner`. -/
def allowancesSave (st : Store) (owner spender : Addr) (v : Amount) : Store :=
  { st with allowances := insertA st.allowances (owner, spender) v }

/-- `Bucket::update` on the allowances bucket of `owner`. -/
def allowancesUpdate (st : Store) (owner spender : Addr)
    (action : Amount → Except Err Amount) : Except Err Amount × Store :=
  match action ((lookupA st.allowances (owner, spender)).getD Amount.default) with
  | .ok out => (.ok out, allowancesSave st owner spender out)
  | .error e => (.error e, st)

/-- `contract.rs` `Response` (only the `log` field matters to the engine;
`messages` is always empty and `data` always `None`). -/
structure Response : Type where
  log : Option String
deriving DecidableEq, Repr

/-- `Response::default()`. -/
def Response.default : Response :=
  ⟨none⟩

/-- `response_with_log`. -/
def response_with_log (msg : String) : Response :=
  ⟨some msg⟩

/-- `msg.rs`: one row of `InitMsg::initial_balances`. -/
structure InitialBalance : Type where
  address : Addr
  amount : Amount
deriving DecidableEq, Repr

/-- `msg.rs`: `InitMsg`. -/
structure InitMsg : Type where
  name : String
  symbol : String
  decimals : Nat
  initial_balances : List InitialBalance
deriving DecidableEq, Repr

/-- `is_valid_name`: 3–30 UTF-8 bytes. -/
def is_valid_name (name : String) : Bool :=
  if name.utf8ByteSize < 3 ∨ name.utf8ByteSize > 30 then false else true

/-- `is_valid_symbol`: 3–6 bytes, every byte in `65..=90` (`A`–`Z`).  Stated
over characters: a multi-byte character has every byte outside `65..=90`, so
the byte-level and character-level checks agree on all strings. -/
def is_valid_symbol (symbol : String) : Bool :=
  if symbol.length < 3 ∨ symbol.length > 6 then false
  else symbol.data.all (fun c => 65 ≤ c.toNat ∧ c.toNat ≤ 90)

/-- The balance-writing loop of `init`: for each row, canonicalize the
address, `parse` the amount (failing out on a malformed row), save the row's
original string under the address, and add the parsed value to the running
`u128` total with unchecked `+=`.  The store is returned as left at the point
of any failure (earlier rows stay written). -/
def initLoop (st : Store) (total : Nat) : List InitialBalance → Except Err Nat × Store
  | [] => (.ok total, st)
  | row :: rest =>
    match row.amount.parse with
    | .error e => (.error e, st)
    | .ok amount_raw =>
      let st1 := balancesSave st row.address row.amount
      match u128Add total amount_raw with
      | .error e => (.error e, st1)
      | .ok t => initLoop st1 t rest

/-- `init`: write all initial balances (summing the running total), then
check name, symbol and decimals, then save `constants` and `total_supply`. -/
def init (st : Store) (msg : InitMsg) : Except Err Response × Store :=
  match initLoop st 0 msg.initial_balances with
  | (.error e, st1) => (.error e, st1)
  | (.ok total, st1) =>
    if ¬ is_valid_name msg.name then
      (.error (.contractErr "Name is not in the expected format (3-30 UTF-8 bytes)"), st1)
    else if ¬ is_valid_symbol msg.symbol then
      (.error (.contractErr "Ticker symbol is not in expected format [A-Z]\x7b3,6\x7d"), st1)
    else if msg.decimals > 18 then
      (.error (.contractErr "Decimals must not exceed 18"), st1)
    else
      let st2 := { st1 with constants := some ⟨msg.name, msg.symbol, msg.decimals⟩ }
      let st3 := { st2 with totalSupply := some (Amount.ofNat total) }
      (.ok Response.default, st3)

/-- `perform_transfer`: debit `fromA` (balance update with `subtract`), then
credit `toA` (balance update with `add`). -/
def perform_transfer (st : Store) (fromA toA : Addr) (amount : Amount) :
    Except Err Unit × Store :=
  match balancesUpdate st fromA (fun current => current.subtract amount) with
  | (.error e, st1) => (.error e, st1)
  | (.ok _, st1) =>
    match balancesUpdate st1 toA (fun current => current.add amount) with
    | (.error e, st2) => (.error e, st2)
    | (.ok _, st2) => (.ok (), st2)

/-- `try_transfer`: validate the amount, then `perform_transfer` from the
signer to the recipient. -/
def try_transfer (st : Store) (signer recipient : Addr) (amount : Amount) :
    Except Err Response × Store :=
  match amount.validate with
  | .error e => (.error e, st)
  | .ok _ =>
    match perform_transfer st signer recipient amount with
    | (.error e, st1) => (.error e, st1)
    | (.ok _, st1) => (.ok (response_with_log "transfer successful"), st1)

/-- `try_transfer_from`: consume the `(owner, signer)` allowance (update with
`subtract`), then `perform_transfer` from the owner to the recipient.  There
is no rollback of the saved allowance when the transfer step fails. -/
def try_transfer_from (st : Store) (signer owner recipient : Addr) (amount : Amount) :
    Except Err Response × Store :=
  match allowancesUpdate st owner signer (fun current => current.subtract amount) with
  | (.error e, st1) => (.error e, st1)
  | (.ok _, st1) =>
    match perform_transfer st1 owner recipient amount with
    | (.error e, st2) => (.error e, st2)
    | (.ok _, st2) => (.ok (response_with_log "transfer from successful"), st2)

/-- `try_approve`: validate the amount, then save it as the `(signer,
spender)` allowance, overwriting any previous value. -/
def try_approve (st : Store) (signer spender : Addr) (amount : Amount) :
    Except Err Response × Store :=
  match amount.validate with
  | .error e => (.error e, st)
  | .ok _ => (.ok (response_with_log "approve successful"), allowancesSave st signer spender amount)

/-- Modelled from the spec: the `Burn` handler.  The snapshot of the contract
that provides `ExecuteMsg::Burn` is present in the repository only through
its integration tests (`src/contracts/erc20/tests/integration.rs`); its
contract source is not under `src/`.  Per the spec, `burn(caller, amount)`
"debits `caller` only; fails with `InsufficientFunds` if insufficient" —
embedded as the same ledger debit used by transfers, touching nothing else. -/
def try_burn (st : Store) (signer : Addr) (amount : Amount) :
    Except Err Response × Store :=
  match balancesUpdate st signer (fun current => current.subtract amount) with
  | (.error e, st1) => (.error e, st1)
  | (.ok _, st1) => (.ok (response_with_log "burn successful"), st1)

/-- The `Balance` query: `may_load` then `unwrap_or_default()`. -/
def queryBalance (st : Store) (address : Addr) : Amount :=
  (lookupA st.balances address).getD Amount.default

/-- The `Allowance` query: `may_load` then `unwrap_or_default()`. -/
def queryAllowance (st : Store) (owner spender : Addr) : Amount :=
  (lookupA st.allowances (owner, spender)).getD Amount.default

/-- Numeric value of an `Amount` string (`0` for an unparsable string; the
operations below only apply it to strings that parse). -/
def amtVal (a : Amount) : Nat :=
  (parseU128String a.val).getD 0

/-- Numeric value of the balance of `k` (the value of `balance_of`). -/
def balVal (st : Store) (k : Addr) : Nat :=
  amtVal (queryBalance st k)

/-- Numeric value of the allowance of `(owner, spender)`. -/
def allowVal (st : Store) (owner spender : Addr) : Nat :=
  amtVal (queryAllowance st owner spender)

/-- Sum of the values of all rows of a balances association list. -/
def sumA (l : List (Addr × Amount)) : Nat :=
  (l.map (fun p => amtVal p.2)).sum

/-- Sum of the values of all rows of the balances bucket. -/
def sumBal (st : Store) : Nat :=
  sumA st.balances

/-- Value of the stored `total_supply` singleton (`0` when unset). -/
def storedTotalSupply (st : Store) : Nat :=
  amtVal (st.totalSupply.getD Amount.default)

/-- Every stored balance is a well-formed `u128` decimal string (hence every
balance is a non-negative integer below `2 ^ 128`). -/
def ledgerOK (st : Store) : Prop :=
  ∀ p ∈ st.balances, (parseU128String p.2.val).isSome = true

/-- The value-moving operations of the Transfer Engine, as invoked by the
host with a pre-authenticated signer. -/
inductive Op : Type where
  | transfer (signer recipient : Addr) (amount : Amount)
  | transferFrom (signer owner recipient : Addr) (amount : Amount)
  | burn (signer : Addr) (amount : Amount)
deriving DecidableEq, Repr

/-- Dispatch one operation against the store. -/
def applyOp (st : Store) : Op → Except Err Response × Store
  | .transfer signer recipient amount => try_transfer st signer recipient amount
  | .transferFrom signer owner recipient amount =>
      try_transfer_from st signer owner recipient amount
  | .burn signer amount => try_burn st signer amount

/-- Amount burned by one operation outcome: the burn amount on a successful
burn, `0` otherwise. -/
def burnedOf (op : Op) (res : Except Err Response) : Nat :=
  match op, res with
  | .burn _ amount, .ok _ => amtVal amount
  | _, _ => 0

/-- Run a sequence of operations, threading the store (each call receives the
store exactly as the previous call left it) and accumulating the total amount
successfully burned. -/
def run (st : Store) : List Op → Store × Nat
  | [] => (st, 0)
  | op :: rest =>
    let r := applyOp st op
    let rr := run r.2 rest
    (rr.1, burnedOf op r.1 + rr.2)

/-- The amount attached to the last row of `rows` listing address `a`. -/
def lastAmount (rows : List InitialBalance) (a : Addr) : Option Amount :=
  (rows.reverse.find? (fun row => row.address = a)).map (fun row => row.amount)

/-- Sum of the parsed values of all listed initial-balance rows. -/
def rowsTotal (rows : List InitialBalance) : Nat :=
  (rows.map (fun row => amtVal row.amount)).sum


theorem digitsVal_append_singleton (ds : List Char) (c : Char) :
    digitsVal (ds ++ [c]) = 10 * digitsVal ds + (c.toNat - 48) := by
  unfold digitsVal
  rw [List.foldl_append]
  simp [Nat.mul_comm]

theorem natToDigitsCore_acc (fuel : Nat) :
    ∀ n acc, natToDigitsCore fuel n acc = natToDigitsCore fuel n [] ++ acc := by
  induction fuel with
  | zero => intro n acc; rfl
  | succ fuel ih =>
    intro n acc
    unfold natToDigitsCore
    by_cases h : n < 10
    · simp [h]
    · simp only [h, if_false]
      rw [ih (n / 10) (digitChar (n % 10) :: acc), ih (n / 10) [digitChar (n % 10)]]
      simp

theorem natToDigitsCore_ne_nil (fuel n : Nat) : natToDigitsCore (fuel + 1) n [] ≠ [] := by
  unfold natToDigitsCore
  by_cases h : n < 10
  · simp [h]
  · simp only [h, if_false]
    rw [natToDigitsCore_acc]
    simp

theorem digitChar_isDigit (d : Nat) (h : d < 10) : (digitChar d).isDigit = true := by
  interval_cases d <;> decide

theorem digitChar_toNat_sub (d : Nat) (h : d < 10) : (digitChar d).toNat - 48 = d := by
  interval_cases d <;> decide

theorem natToDigitsCore_val (fuel : Nat) :
    ∀ n, n < 10 ^ fuel →
      (natToDigitsCore fuel n []).all Char.isDigit = true ∧
        digitsVal (natToDigitsCore fuel n []) = n := by
  induction fuel with
  | zero =>
    intro n h
    interval_cases n
    exact ⟨rfl, rfl⟩
  | succ fuel ih =>
    intro n h
    unfold natToDigitsCore
    by_cases h10 : n < 10
    · constructor
      · simp [h10, digitChar_isDigit n h10]
      · simp only [h10, if_true]
        unfold digitsVal
        simp [digitChar_toNat_sub n h10]
    · simp only [h10, if_false]
      rw [natToDigitsCore_acc]
      have hdiv : n / 10 < 10 ^ fuel := by
        rw [Nat.div_lt_iff_lt_mul (by norm_num)]
        calc n < 10 ^ (fuel + 1) := h
        _ = 10 ^ fuel * 10 := by ring
      obtain ⟨hall, hval⟩ := ih (n / 10) hdiv
      constructor
      · rw [List.all_append]
        simp [hall, digitChar_isDigit (n % 10) (Nat.mod_lt n (by omega))]
      · rw [digitsVal_append_singleton, hval, digitChar_toNat_sub (n % 10) (Nat.mod_lt n (by omega))]
        omega

theorem natToDigits_spec (n : Nat) :
    natToDigits n ≠ [] ∧ (natToDigits n).all Char.isDigit = true ∧
      digitsVal (natToDigits n) = n := by
  have hn : n < 10 ^ (n + 1) := by
    calc n < 10 ^ n := Nat.lt_pow_self (by norm_num) n
    _ ≤ 10 ^ (n + 1) := Nat.pow_le_pow_right (by norm_num) (by omega)
  obtain ⟨hall, hval⟩ := natToDigitsCore_val (n + 1) n hn
  exact ⟨natToDigitsCore_ne_nil n n, hall, hval⟩

theorem parseU128String_digits (ds : List Char) (h1 : ds ≠ [])
    (h2 : ds.all Char.isDigit = true) (h3 : digitsVal ds < 2 ^ 128) :
    parseU128String (String.mk ds) = some (digitsVal ds) := by
  match ds, h1 with
  | c :: rest, _ =>
    have hc : c.isDigit = true := by
      exact List.all_eq_true.mp h2 c (by simp)
    have hcp : ¬(c = '+') := by
      intro hEq
      subst hEq
      exact absurd hc (by decide)
    unfold parseU128String
    simp [hcp, List.all_eq_true.mp h2, h3, List.all_eq_true]
    refine ⟨fun x hx => List.all_eq_true.mp h2 x (by simp [hx]), ?_⟩
    calc digitsVal (c :: rest) < 2 ^ 128 := h3
    _ = 340282366920938463463374607431768211456 := by norm_num

theorem parse_ofNat (n : Nat) (h : n < 2 ^ 128) : (Amount.ofNat n).parse = .ok n := by
  obtain ⟨h1, h2, h3⟩ := natToDigits_spec n
  unfold Amount.ofNat Amount.parse
  rw [parseU128String_digits _ h1 h2 (by rw [h3]; exact h)]
  simp [h3]

theorem amtVal_ofNat (n : Nat) (h : n < 2 ^ 128) : amtVal (Amount.ofNat n) = n := by
  obtain ⟨h1, h2, h3⟩ := natToDigits_spec n
  unfold Amount.ofNat amtVal
  rw [parseU128String_digits _ h1 h2 (by rw [h3]; exact h)]
  simp [h3]

theorem parseU128String_lt (s : String) (v : Nat) (h : parseU128String s = some v) :
    v < 2 ^ 128 := by
  unfold parseU128String at h
  split at h
  · exact absurd h (by simp)
  · split_ifs at h <;> simp_all

theorem parse_lt (a : Amount) (v : Nat) (h : a.parse = .ok v) : v < 2 ^ 128 := by
  unfold Amount.parse at h
  split at h
  · rename_i heq
    cases h
    exact parseU128String_lt _ _ heq
  · exact absurd h (by simp)

theorem parse_amtVal (a : Amount) (v : Nat) (h : a.parse = .ok v) : amtVal a = v := by
  unfold Amount.parse at h
  split at h
  · rename_i heq
    cases h
    unfold amtVal
    rw [heq]
    rfl
  · exact absurd h (by simp)

theorem parse_isSome (a : Amount) (v : Nat) (h : a.parse = .ok v) :
    (parseU128String a.val).isSome = true := by
  unfold Amount.parse at h
  split at h
  · rename_i heq
    rw [heq]
    rfl
  · exact absurd h (by simp)

theorem amtVal_default : amtVal Amount.default = 0 := by decide

theorem parse_default : Amount.default.parse = .ok 0 := by decide

theorem lookupA_insertA_self {κ α : Type} [DecidableEq κ] (l : List (κ × α)) (k : κ) (v : α) :
    lookupA (insertA l k v) k = some v := by
  induction l with
  | nil => simp [insertA, lookupA]
  | cons p rest ih =>
    obtain ⟨k', v'⟩ := p
    unfold insertA
    by_cases h : k' = k
    · simp [h, lookupA]
    · simp [h, lookupA, ih]

theorem lookupA_insertA_ne {κ α : Type} [DecidableEq κ] (l : List (κ × α)) (k k' : κ) (v : α)
    (h : k ≠ k') : lookupA (insertA l k v) k' = lookupA l k' := by
  induction l with
  | nil => simp [insertA, lookupA, h]
  | cons p rest ih =>
    obtain ⟨k0, v0⟩ := p
    unfold insertA
    by_cases h0 : k0 = k
    · subst h0
      simp [lookupA, h]
    · simp only [h0, if_false]
      unfold lookupA
      by_cases h1 : k0 = k'
      · simp [h1]
      · simp [h1, ih]

theorem mem_insertA {κ α : Type} [DecidableEq κ] (l : List (κ × α)) (k : κ) (v : α)
    (p : κ × α) (hp : p ∈ insertA l k v) : p = (k, v) ∨ p ∈ l := by
  induction l with
  | nil => simp [insertA] at hp; simp [hp]
  | cons q rest ih =>
    obtain ⟨k0, v0⟩ := q
    unfold insertA at hp
    by_cases h0 : k0 = k
    · simp only [h0, if_true] at hp
      rcases List.mem_cons.mp hp with h | h
      · exact Or.inl h
      · exact Or.inr (List.mem_cons_of_mem _ h)
    · simp only [h0, if_false] at hp
      rcases List.mem_cons.mp hp with h | h
      · exact Or.inr (by simp [h])
      · rcases ih h with h' | h'
        · exact Or.inl h'
        · exact Or.inr (List.mem_cons_of_mem _ h')

theorem lookupA_mem {κ α : Type} [DecidableEq κ] (l : List (κ × α)) (k : κ) (a : α)
    (h : lookupA l k = some a) : (k, a) ∈ l := by
  induction l with
  | nil => simp [lookupA] at h
  | cons p rest ih =>
    obtain ⟨k0, v0⟩ := p
    unfold lookupA at h
    by_cases h0 : k0 = k
    · subst h0
      simp at h
      simp [h]
    · simp only [h0, if_false] at h
      exact List.mem_cons_of_mem _ (ih h)

theorem sumA_insertA (l : List (Addr × Amount)) (k : Addr) (v : Amount) :
    sumA (insertA l k v) + amtVal ((lookupA l k).getD Amount.default) = sumA l + amtVal v := by
  induction l with
  | nil => simp [insertA, lookupA, sumA, amtVal_default]
  | cons p rest ih =>
    obtain ⟨k0, v0⟩ := p
    unfold insertA lookupA
    by_cases h0 : k0 = k
    · simp only [h0, if_true]
      simp [sumA]
      omega
    · simp only [h0, if_false]
      simp [sumA] at ih ⊢
      omega

theorem lookupA_le_sumA (l : List (Addr × Amount)) (k : Addr) (a : Amount)
    (h : lookupA l k = some a) : amtVal a ≤ sumA l := by
  induction l with
  | nil => simp [lookupA] at h
  | cons p rest ih =>
    obtain ⟨k0, v0⟩ := p
    unfold lookupA at h
    by_cases h0 : k0 = k
    · simp only [h0, if_true] at h
      cases h
      simp [sumA]
    · simp only [h0, if_false] at h
      have := ih h
      simp [sumA] at this ⊢
      omega

theorem curVal_le_sumA (l : List (Addr × Amount)) (k : Addr) :
    amtVal ((lookupA l k).getD Amount.default) ≤ sumA l := by
  cases h : lookupA l k with
  | none => simp [amtVal_default]
  | some a => simpa using lookupA_le_sumA l k a h

theorem isSome_parse (a : Amount) (h : (parseU128String a.val).isSome = true) :
    a.parse = .ok (amtVal a) := by
  unfold Amount.parse amtVal
  cases hp : parseU128String a.val
  · rw [hp] at h
    cases h
  · simp

theorem ledgerOK_cur_parse (st : Store) (hOK : ledgerOK st) (k : Addr) :
    ((lookupA st.balances k).getD Amount.default).parse =
      .ok (amtVal ((lookupA st.balances k).getD Amount.default)) := by
  cases h : lookupA st.balances k with
  | none => simp [parse_default, amtVal_default]
  | some a =>
    have hmem := lookupA_mem _ _ _ h
    simp only [Option.getD_some]
    exact isSome_parse a (hOK (k, a) hmem)

theorem ledgerOK_save (st : Store) (k : Addr) (v : Amount) (hOK : ledgerOK st)
    (hv : (parseU128String v.val).isSome = true) : ledgerOK (balancesSave st k v) := by
  intro p hp
  unfold balancesSave at hp
  simp at hp
  rcases mem_insertA _ _ _ _ hp with h | h
  · subst h
    exact hv
  · exact hOK p h

theorem ledgerOK_allowancesSave (st : Store) (o s : Addr) (v : Amount) (hOK : ledgerOK st) :
    ledgerOK (allowancesSave st o s v) := by
  intro p hp
  exact hOK p hp

theorem queryBalance_parse (st : Store) (hOK : ledgerOK st) (k : Addr) :
    (queryBalance st k).parse = .ok (balVal st k) := by
  unfold balVal queryBalance
  exact ledgerOK_cur_parse st hOK k

theorem balVal_lt (st : Store) (hOK : ledgerOK st) (k : Addr) : balVal st k < 2 ^ 128 :=
  parse_lt _ _ (queryBalance_parse st hOK k)

theorem balVal_le_sumBal (st : Store) (k : Addr) : balVal st k ≤ sumBal st :=
  curVal_le_sumA st.balances k

theorem sumBal_save (st : Store) (k : Addr) (v : Amount) :
    sumBal (balancesSave st k v) + balVal st k = sumBal st + amtVal v :=
  sumA_insertA st.balances k v

theorem balancesSave_frame (st : Store) (k : Addr) (v : Amount) :
    (balancesSave st k v).allowances = st.allowances ∧
      (balancesSave st k v).constants = st.constants ∧
      (balancesSave st k v).totalSupply = st.totalSupply :=
  ⟨rfl, rfl, rfl⟩

theorem subtract_err_left (a b : Amount) (e : Err) (ha : a.parse = .error e) :
    a.subtract b = .error e := by
  unfold Amount.subtract
  rw [ha]

theorem subtract_err_right (a b : Amount) (x : Nat) (e : Err) (ha : a.parse = .ok x)
    (hb : b.parse = .error e) : a.subtract b = .error e := by
  unfold Amount.subtract
  rw [ha, hb]

theorem subtract_spec (a b : Amount) (x y : Nat) (ha : a.parse = .ok x) (hb : b.parse = .ok y) :
    a.subtract b =
      if x < y then
        .error (.dynContractErr
          ("Insufficient funds: have=" ++ toString x ++ ", subtract=" ++ toString y))
      else .ok (Amount.ofNat (x - y)) := by
  unfold Amount.subtract
  rw [ha, hb]

theorem add_spec (a b : Amount) (x y : Nat) (ha : a.parse = .ok x) (hb : b.parse = .ok y) :
    a.add b =
      if x + y < 2 ^ 128 then .ok (Amount.ofNat (x + y))
      else .error (.panicked "attempt to add with overflow") := by
  simp only [Amount.add, ha, hb, u128Add]
  split_ifs with h <;> rfl

theorem debit_cases (st : Store) (key : Addr) (amt : Amount) (hOK : ledgerOK st) :
    (∃ e, balancesUpdate st key (fun current => current.subtract amt) = (.error e, st)) ∨
      (∃ v, amt.parse = .ok v ∧ v ≤ balVal st key ∧
        balancesUpdate st key (fun current => current.subtract amt) =
          (.ok (Amount.ofNat (balVal st key - v)),
            balancesSave st key (Amount.ofNat (balVal st key - v)))) := by
  have hcur := ledgerOK_cur_parse st hOK key
  have hbv : balVal st key = amtVal ((lookupA st.balances key).getD Amount.default) := rfl
  cases hamt : amt.parse with
  | error e =>
    have hsub := subtract_err_right _ amt _ e hcur hamt
    left
    exact ⟨e, by simp only [balancesUpdate, hsub]⟩
  | ok v =>
    have hsub := subtract_spec _ amt _ v hcur hamt
    by_cases hlt : amtVal ((lookupA st.balances key).getD Amount.default) < v
    · rw [if_pos hlt] at hsub
      left
      exact ⟨_, by simp only [balancesUpdate, hsub]; rfl⟩
    · rw [if_neg hlt] at hsub
      right
      refine ⟨v, rfl, by omega, ?_⟩
      rw [hbv]
      simp only [balancesUpdate, hsub]

theorem credit_ok (st : Store) (key : Addr) (amt : Amount) (v : Nat) (hOK : ledgerOK st)
    (hamt : amt.parse = .ok v) (hbound : balVal st key + v < 2 ^ 128) :
    balancesUpdate st key (fun current => current.add amt) =
      (.ok (Amount.ofNat (balVal st key + v)),
        balancesSave st key (Amount.ofNat (balVal st key + v))) := by
  have hcur := ledgerOK_cur_parse st hOK key
  have hbv : balVal st key = amtVal ((lookupA st.balances key).getD Amount.default) := rfl
  have hadd := add_spec _ amt _ v hcur hamt
  rw [← hbv] at hadd
  rw [if_pos hbound] at hadd
  simp only [balancesUpdate, hadd]

theorem ofNat_isSome (n : Nat) (h : n < 2 ^ 128) :
    (parseU128String (Amount.ofNat n).val).isSome = true :=
  parse_isSome _ _ (parse_ofNat n h)

theorem perform_transfer_cases (st : Store) (fromA toA : Addr) (amt : Amount)
    (hOK : ledgerOK st) (hB : sumBal st < 2 ^ 128) :
    (∃ e, perform_transfer st fromA toA amt = (.error e, st)) ∨
      (∃ v, amt.parse = .ok v ∧ v ≤ balVal st fromA ∧
        perform_transfer st fromA toA amt =
          (.ok (),
            balancesSave (balancesSave st fromA (Amount.ofNat (balVal st fromA - v))) toA
              (Amount.ofNat
                (balVal (balancesSave st fromA (Amount.ofNat (balVal st fromA - v))) toA + v)))) := by
  rcases debit_cases st fromA amt hOK with ⟨e, hd⟩ | ⟨v, hamt, hle, hd⟩
  · left
    exact ⟨e, by simp only [perform_transfer, hd]⟩
  · right
    refine ⟨v, hamt, hle, ?_⟩
    have hbF : balVal st fromA < 2 ^ 128 := balVal_lt st hOK fromA
    have hOK1 : ledgerOK (balancesSave st fromA (Amount.ofNat (balVal st fromA - v))) :=
      ledgerOK_save st fromA _ hOK (ofNat_isSome _ (by omega))
    have hbound :
        balVal (balancesSave st fromA (Amount.ofNat (balVal st fromA - v))) toA + v < 2 ^ 128 := by
      have h1 := sumBal_save st fromA (Amount.ofNat (balVal st fromA - v))
      rw [amtVal_ofNat (balVal st fromA - v) (by omega)] at h1
      have h2 : balVal st fromA ≤ sumBal st := balVal_le_sumBal st fromA
      have h3 := balVal_le_sumBal (balancesSave st fromA (Amount.ofNat (balVal st fromA - v))) toA
      omega
    have hc := credit_ok _ toA amt v hOK1 hamt hbound
    simp only [perform_transfer, hd, hc]

theorem perform_transfer_conserved (st : Store) (fromA toA : Addr) (amt : Amount)
    (hOK : ledgerOK st) (hB : sumBal st < 2 ^ 128) :
    ledgerOK (perform_transfer st fromA toA amt).2 ∧
      sumBal (perform_transfer st fromA toA amt).2 = sumBal st ∧
      (perform_transfer st fromA toA amt).2.allowances = st.allowances ∧
      (perform_transfer st fromA toA amt).2.constants = st.constants ∧
      (perform_transfer st fromA toA amt).2.totalSupply = st.totalSupply := by
  rcases perform_transfer_cases st fromA toA amt hOK hB with ⟨e, hp⟩ | ⟨v, hamt, hle, hp⟩
  · rw [hp]
    exact ⟨hOK, rfl, rfl, rfl, rfl⟩
  · rw [hp]
    dsimp only
    have hbF : balVal st fromA < 2 ^ 128 := balVal_lt st hOK fromA
    have hOK1 : ledgerOK (balancesSave st fromA (Amount.ofNat (balVal st fromA - v))) :=
      ledgerOK_save st fromA _ hOK (ofNat_isSome _ (by omega))
    have hsum1 :
        sumBal (balancesSave st fromA (Amount.ofNat (balVal st fromA - v))) + balVal st fromA =
          sumBal st + (balVal st fromA - v) := by
      have h1 := sumBal_save st fromA (Amount.ofNat (balVal st fromA - v))
      rwa [amtVal_ofNat (balVal st fromA - v) (by omega)] at h1
    have hbS : balVal st fromA ≤ sumBal st := balVal_le_sumBal st fromA
    have hcS :
        balVal (balancesSave st fromA (Amount.ofNat (balVal st fromA - v))) toA ≤
          sumBal (balancesSave st fromA (Amount.ofNat (balVal st fromA - v))) :=
      balVal_le_sumBal _ toA
    have hc2 :
        balVal (balancesSave st fromA (Amount.ofNat (balVal st fromA - v))) toA + v < 2 ^ 128 := by
      omega
    have hOK2 : ledgerOK
        (balancesSave (balancesSave st fromA (Amount.ofNat (balVal st fromA - v))) toA
          (Amount.ofNat (balVal (balancesSave st fromA (Amount.ofNat (balVal st fromA - v))) toA + v))) :=
      ledgerOK_save _ toA _ hOK1 (ofNat_isSome _ hc2)
    have hsum2 :
        sumBal (balancesSave (balancesSave st fromA (Amount.ofNat (balVal st fromA - v))) toA
            (Amount.ofNat (balVal (balancesSave st fromA (Amount.ofNat (balVal st fromA - v))) toA + v))) +
          balVal (balancesSave st fromA (Amount.ofNat (balVal st fromA - v))) toA =
          sumBal (balancesSave st fromA (Amount.ofNat (balVal st fromA - v))) +
            (balVal (balancesSave st fromA (Amount.ofNat (balVal st fromA - v))) toA + v) := by
      have h1 := sumBal_save (balancesSave st fromA (Amount.ofNat (balVal st fromA - v))) toA
        (Amount.ofNat (balVal (balancesSave st fromA (Amount.ofNat (balVal st fromA - v))) toA + v))
      rwa [amtVal_ofNat _ hc2] at h1
    exact ⟨hOK2, by omega, rfl, rfl, rfl⟩

theorem try_transfer_store (st : Store) (s r : Addr) (amt : Amount) (u : Unit)
    (hv : amt.validate = .ok u) :
    (try_transfer st s r amt).2 = (perform_transfer st s r amt).2 := by
  simp only [try_transfer, hv]
  rcases hq : perform_transfer st s r amt with ⟨res, st'⟩
  cases res <;> rfl

theorem try_transfer_conserved (st : Store) (s r : Addr) (amt : Amount)
    (hOK : ledgerOK st) (hB : sumBal st < 2 ^ 128) :
    ledgerOK (try_transfer st s r amt).2 ∧ sumBal (try_transfer st s r amt).2 = sumBal st := by
  cases hv : amt.validate with
  | error e =>
    simp only [try_transfer, hv]
    exact ⟨hOK, trivial⟩
  | ok u =>
    rw [try_transfer_store st s r amt u hv]
    have hp := perform_transfer_conserved st s r amt hOK hB
    exact ⟨hp.1, hp.2.1⟩

theorem allowancesUpdate_cases (st : Store) (o s : Addr) (action : Amount → Except Err Amount) :
    (∃ e, allowancesUpdate st o s action = (.error e, st)) ∨
      (∃ out, allowancesUpdate st o s action = (.ok out, allowancesSave st o s out)) := by
  cases h : action ((lookupA st.allowances (o, s)).getD Amount.default) with
  | ok out =>
    right
    exact ⟨out, by simp only [allowancesUpdate, h]⟩
  | error e =>
    left
    exact ⟨e, by simp only [allowancesUpdate, h]⟩

theorem try_transfer_from_store (st : Store) (s o r : Addr) (amt : Amount) (out : Amount)
    (ha : allowancesUpdate st o s (fun current => current.subtract amt) =
      (.ok out, allowancesSave st o s out)) :
    (try_transfer_from st s o r amt).2 = (perform_transfer (allowancesSave st o s out) o r amt).2 := by
  simp only [try_transfer_from, ha]
  rcases hq : perform_transfer (allowancesSave st o s out) o r amt with ⟨res, st'⟩
  cases res <;> rfl

theorem try_transfer_from_conserved (st : Store) (s o r : Addr) (amt : Amount)
    (hOK : ledgerOK st) (hB : sumBal st < 2 ^ 128) :
    ledgerOK (try_transfer_from st s o r amt).2 ∧
      sumBal (try_transfer_from st s o r amt).2 = sumBal st := by
  rcases allowancesUpdate_cases st o s (fun current => current.subtract amt) with ⟨e, ha⟩ | ⟨out, ha⟩
  · simp only [try_transfer_from, ha]
    exact ⟨hOK, trivial⟩
  · rw [try_transfer_from_store st s o r amt out ha]
    have hOK1 : ledgerOK (allowancesSave st o s out) := ledgerOK_allowancesSave st o s out hOK
    have hB1 : sumBal (allowancesSave st o s out) < 2 ^ 128 := hB
    have hp := perform_transfer_conserved (allowancesSave st o s out) o r amt hOK1 hB1
    exact ⟨hp.1, hp.2.1⟩

theorem try_burn_conserved (st : Store) (s : Addr) (amt : Amount) (hOK : ledgerOK st) :
    ledgerOK (try_burn st s amt).2 ∧
      sumBal (try_burn st s amt).2 + burnedOf (.burn s amt) (try_burn st s amt).1 = sumBal st := by
  rcases debit_cases st s amt hOK with ⟨e, hd⟩ | ⟨v, hamt, hle, hd⟩
  · simp only [try_burn, hd]
    exact ⟨hOK, rfl⟩
  · simp only [try_burn, hd]
    have hbF : balVal st s < 2 ^ 128 := balVal_lt st hOK s
    have hOK1 : ledgerOK (balancesSave st s (Amount.ofNat (balVal st s - v))) :=
      ledgerOK_save st s _ hOK (ofNat_isSome _ (by omega))
    have hsum1 :
        sumBal (balancesSave st s (Amount.ofNat (balVal st s - v))) + balVal st s =
          sumBal st + (balVal st s - v) := by
      have h1 := sumBal_save st s (Amount.ofNat (balVal st s - v))
      rwa [amtVal_ofNat (balVal st s - v) (by omega)] at h1
    have hbS : balVal st s ≤ sumBal st := balVal_le_sumBal st s
    refine ⟨hOK1, ?_⟩
    have hbv : burnedOf (.burn s amt) (.ok (response_with_log "burn successful")) = amtVal amt := rfl
    rw [hbv, parse_amtVal amt v hamt]
    omega

theorem applyOp_conserved (st : Store) (op : Op) (hOK : ledgerOK st)
    (hB : sumBal st < 2 ^ 128) :
    ledgerOK (applyOp st op).2 ∧
      sumBal (applyOp st op).2 + burnedOf op (applyOp st op).1 = sumBal st := by
  cases op with
  | transfer s r amt =>
    have h := try_transfer_conserved st s r amt hOK hB
    refine ⟨h.1, ?_⟩
    have h0 : burnedOf (.transfer s r amt) (applyOp st (.transfer s r amt)).1 = 0 := by
      cases (applyOp st (.transfer s r amt)).1 <;> rfl
    rw [h0]
    have := h.2
    simpa [applyOp] using this
  | transferFrom s o r amt =>
    have h := try_transfer_from_conserved st s o r amt hOK hB
    refine ⟨h.1, ?_⟩
    have h0 : burnedOf (.transferFrom s o r amt) (applyOp st (.transferFrom s o r amt)).1 = 0 := by
      cases (applyOp st (.transferFrom s o r amt)).1 <;> rfl
    rw [h0]
    have := h.2
    simpa [applyOp] using this
  | burn s amt =>
    exact try_burn_conserved st s amt hOK

theorem run_conserved (ops : List Op) :
    ∀ st : Store, ledgerOK st → sumBal st < 2 ^ 128 →
      ledgerOK (run st ops).1 ∧ sumBal (run st ops).1 + (run st ops).2 = sumBal st := by
  induction ops with
  | nil =>
    intro st hOK hB
    exact ⟨hOK, rfl⟩
  | cons op rest ih =>
    intro st hOK hB
    obtain ⟨hOK1, hsum1⟩ := applyOp_conserved st op hOK hB
    have hB1 : sumBal (applyOp st op).2 < 2 ^ 128 := by omega
    obtain ⟨hOK2, hsum2⟩ := ih (applyOp st op).2 hOK1 hB1
    constructor
    · simpa [run] using hOK2
    · have hr : run st (op :: rest) =
          ((run (applyOp st op).2 rest).1,
            burnedOf op (applyOp st op).1 + (run (applyOp st op).2 rest).2) := rfl
      rw [hr]
      simp only
      omega

theorem sumA_insertA_fresh (l : List (Addr × Amount)) (k : Addr) (v : Amount)
    (h : lookupA l k = none) : sumA (insertA l k v) = sumA l + amtVal v := by
  have h1 := sumA_insertA l k v
  rw [h] at h1
  simpa [amtVal_default] using h1

theorem sumA_insertA_le (l : List (Addr × Amount)) (k : Addr) (v : Amount) :
    sumA (insertA l k v) ≤ sumA l + amtVal v := by
  have h1 := sumA_insertA l k v
  omega

theorem initLoop_frame (rows : List InitialBalance) :
    ∀ st total, (initLoop st total rows).2.allowances = st.allowances ∧
      (initLoop st total rows).2.constants = st.constants ∧
      (initLoop st total rows).2.totalSupply = st.totalSupply := by
  induction rows with
  | nil => intro st total; exact ⟨rfl, rfl, rfl⟩
  | cons row rest ih =>
    intro st total
    cases hp : row.amount.parse with
    | error e =>
      simp only [initLoop, hp]
      refine ⟨?_, ?_, ?_⟩ <;> trivial
    | ok v =>
      cases ha : u128Add total v with
      | error e =>
        simp only [initLoop, hp, ha]
        refine ⟨?_, ?_, ?_⟩ <;> trivial
      | ok t1 =>
        simp only [initLoop, hp, ha]
        exact ih (balancesSave st row.address row.amount) t1

theorem initLoop_bound (rows : List InitialBalance) :
    ∀ st total t st', initLoop st total rows = (.ok t, st') → total < 2 ^ 128 → t < 2 ^ 128 := by
  induction rows with
  | nil =>
    intro st total t st' h hb
    simp only [initLoop] at h
    cases h
    exact hb
  | cons row rest ih =>
    intro st total t st' h hb
    cases hp : row.amount.parse with
    | error e => simp only [initLoop, hp] at h; cases h
    | ok v =>
      cases ha : u128Add total v with
      | error e => simp only [initLoop, hp, ha] at h; cases h
      | ok t1 =>
        simp only [initLoop, hp, ha] at h
        have ht1 : t1 < 2 ^ 128 := by
          unfold u128Add at ha
          split_ifs at ha with hlt
          cases ha
          exact hlt
        exact ih _ t1 t st' h ht1

theorem initLoop_total (rows : List InitialBalance) :
    ∀ st total t st', initLoop st total rows = (.ok t, st') → t = total + rowsTotal rows := by
  induction rows with
  | nil =>
    intro st total t st' h
    simp only [initLoop] at h
    cases h
    simp [rowsTotal]
  | cons row rest ih =>
    intro st total t st' h
    cases hp : row.amount.parse with
    | error e => simp only [initLoop, hp] at h; cases h
    | ok v =>
      cases ha : u128Add total v with
      | error e => simp only [initLoop, hp, ha] at h; cases h
      | ok t1 =>
        simp only [initLoop, hp, ha] at h
        have ht1 : t1 = total + v := by
          unfold u128Add at ha
          split_ifs at ha with hlt
          cases ha
          rfl
        have hrest := ih _ t1 t st' h
        have hv : amtVal row.amount = v := parse_amtVal _ _ hp
        simp [rowsTotal] at hrest ⊢
        omega

theorem initLoop_ledgerOK (rows : List InitialBalance) :
    ∀ st total t st', initLoop st total rows = (.ok t, st') → ledgerOK st → ledgerOK st' := by
  induction rows with
  | nil =>
    intro st total t st' h hOK
    simp only [initLoop] at h
    cases h
    exact hOK
  | cons row rest ih =>
    intro st total t st' h hOK
    cases hp : row.amount.parse with
    | error e => simp only [initLoop, hp] at h; cases h
    | ok v =>
      cases ha : u128Add total v with
      | error e => simp only [initLoop, hp, ha] at h; cases h
      | ok t1 =>
        simp only [initLoop, hp, ha] at h
        exact ih _ t1 t st' h (ledgerOK_save st row.address row.amount hOK (parse_isSome _ _ hp))

theorem initLoop_sum_nodup (rows : List InitialBalance) :
    ∀ st total t st', initLoop st total rows = (.ok t, st') →
      (rows.map InitialBalance.address).Nodup →
      (∀ row ∈ rows, lookupA st.balances row.address = none) →
      sumBal st' = sumBal st + rowsTotal rows := by
  induction rows with
  | nil =>
    intro st total t st' h _ _
    simp only [initLoop] at h
    cases h
    simp [rowsTotal]
  | cons row rest ih =>
    intro st total t st' h hnd hfresh
    cases hp : row.amount.parse with
    | error e => simp only [initLoop, hp] at h; cases h
    | ok v =>
      cases ha : u128Add total v with
      | error e => simp only [initLoop, hp, ha] at h; cases h
      | ok t1 =>
        simp only [initLoop, hp, ha] at h
        have hnd' : (rest.map InitialBalance.address).Nodup := (List.nodup_cons.mp (by simpa using hnd)).2
        have hnotin : row.address ∉ rest.map InitialBalance.address :=
          (List.nodup_cons.mp (by simpa using hnd)).1
        have hfresh' : ∀ row' ∈ rest,
            lookupA (balancesSave st row.address row.amount).balances row'.address = none := by
          intro row' hr
          have hne : row.address ≠ row'.address := by
            intro hEq
            exact hnotin (by rw [hEq]; exact List.mem_map_of_mem _ hr)
          unfold balancesSave
          rw [lookupA_insertA_ne _ _ _ _ hne]
          exact hfresh row' (List.mem_cons_of_mem _ hr)
        have hrest := ih _ t1 t st' h hnd' hfresh'
        have hs1 : sumBal (balancesSave st row.address row.amount) = sumBal st + amtVal row.amount :=
          sumA_insertA_fresh st.balances row.address row.amount (hfresh row (by simp))
        rw [hrest, hs1]
        simp [rowsTotal]
        omega

theorem initLoop_sum_le (rows : List InitialBalance) :
    ∀ st total t st', initLoop st total rows = (.ok t, st') →
      sumBal st' ≤ sumBal st + rowsTotal rows := by
  induction rows with
  | nil =>
    intro st total t st' h
    simp only [initLoop] at h
    cases h
    simp [rowsTotal]
  | cons row rest ih =>
    intro st total t st' h
    cases hp : row.amount.parse with
    | error e => simp only [initLoop, hp] at h; cases h
    | ok v =>
      cases ha : u128Add total v with
      | error e => simp only [initLoop, hp, ha] at h; cases h
      | ok t1 =>
        simp only [initLoop, hp, ha] at h
        have hrest := ih _ t1 t st' h
        have hs1 : sumBal (balancesSave st row.address row.amount) ≤ sumBal st + amtVal row.amount :=
          sumA_insertA_le st.balances row.address row.amount
        simp [rowsTotal] at hrest ⊢
        omega

theorem lastAmount_nil (a : Addr) : lastAmount [] a = none := rfl

theorem lastAmount_cons (row : InitialBalance) (rest : List InitialBalance) (a : Addr) :
    lastAmount (row :: rest) a =
      match lastAmount rest a with
      | some x => some x
      | none => if row.address = a then some row.amount else none := by
  unfold lastAmount
  rw [List.reverse_cons, List.find?_append]
  cases hf : (rest.reverse.find? fun r => decide (r.address = a)) with
  | some x =>
    simp [Option.orElse, hf]
  | none =>
    simp only [Option.none_or]
    by_cases ha : row.address = a
    · simp [List.find?, ha]
    · simp [List.find?, ha]

theorem initLoop_lookup (rows : List InitialBalance) :
    ∀ st total t st', initLoop st total rows = (.ok t, st') → ∀ a,
      lookupA st'.balances a =
        match lastAmount rows a with
        | some x => some x
        | none => lookupA st.balances a := by
  induction rows with
  | nil =>
    intro st total t st' h a
    simp only [initLoop] at h
    cases h
    rw [lastAmount_nil]
  | cons row rest ih =>
    intro st total t st' h a
    cases hp : row.amount.parse with
    | error e => simp only [initLoop, hp] at h; cases h
    | ok v =>
      cases ha : u128Add total v with
      | error e => simp only [initLoop, hp, ha] at h; cases h
      | ok t1 =>
        simp only [initLoop, hp, ha] at h
        have hrest := ih _ t1 t st' h a
        rw [hrest, lastAmount_cons]
        cases hla : lastAmount rest a with
        | some x => rfl
        | none =>
          unfold balancesSave
          by_cases haddr : row.address = a
          · subst haddr
            simp [lookupA_insertA_self]
          · simp [haddr, lookupA_insertA_ne st.balances row.address a row.amount haddr]

theorem init_ok_parts (st : Store) (msg : InitMsg) (r : Response) (st1 : Store)
    (h : init st msg = (.ok r, st1)) :
    ∃ total stL, initLoop st 0 msg.initial_balances = (.ok total, stL) ∧
      is_valid_name msg.name = true ∧ is_valid_symbol msg.symbol = true ∧
      msg.decimals ≤ 18 ∧ r = Response.default ∧
      st1 = { stL with
              constants := some ⟨msg.name, msg.symbol, msg.decimals⟩
              totalSupply := some (Amount.ofNat total) } := by
  rcases hl : initLoop st 0 msg.initial_balances with ⟨res, stL⟩
  cases res with
  | error e =>
    simp only [init, hl] at h
    simp at h
  | ok total =>
    simp only [init, hl] at h
    split_ifs at h with h1 h2 h3 <;> simp at h
    obtain ⟨ha, hb⟩ := h
    exact ⟨total, stL, rfl, h1, h2, by omega, ha.symm, hb.symm⟩

theorem validate_ok (a : Amount) (v : Nat) (h : a.parse = .ok v) : a.validate = .ok () := by
  unfold Amount.validate
  rw [h]

theorem insertA_idem {κ α : Type} [DecidableEq κ] (l : List (κ × α)) (k : κ) (v : α) :
    insertA (insertA l k v) k v = insertA l k v := by
  induction l with
  | nil => simp [insertA]
  | cons p rest ih =>
    obtain ⟨k0, v0⟩ := p
    unfold insertA
    by_cases h0 : k0 = k
    · simp [h0, insertA]
    · simp [insertA, h0, ih]

/-- Claim C5: corrected.  `Amount::add` computes `self.parse()? + other.parse()?`
with plain (unchecked) `u128` addition: for parseable operands it returns their
sum when that sum is representable, and on mathematical overflow it panics
(aborting the call) — it never returns a typed `Overflow` error (no such error
exists in the contract), and never saturates or wraps into a success value. -/
theorem C5_add_unchecked (a b : Amount) (x y : Nat) (hx : a.parse = .ok x)
    (hy : b.parse = .ok y) :
    Amount.add a b =
      if x + y < 2 ^ 128 then .ok (Amount.ofNat (x + y))
      else .error (.panicked "attempt to add with overflow") :=
  add_spec a b x y hx hy

theorem C5_witness :
    Amount.add ⟨"7"⟩ ⟨"5"⟩ = .ok (Amount.ofNat 12) := by
  have h := C5_add_unchecked ⟨"7"⟩ ⟨"5"⟩ 7 5 (by decide) (by decide)
  rw [if_pos (by norm_num)] at h
  exact h

theorem C5_counterexample :
    Amount.add ⟨"340282366920938463463374607431768211455"⟩ ⟨"1"⟩ =
      .error (.panicked "attempt to add with overflow") := by decide

/-- Claim C7: confirmed.  For valid amounts `a` and `b`, `Amount::subtract`
fails with the `InsufficientFunds` error exactly when `b > a`, and otherwise
returns the amount representing `a - b`. -/
theorem C7_subtract_insufficient (a b : Amount) (x y : Nat) (hx : a.parse = .ok x)
    (hy : b.parse = .ok y) :
    Amount.subtract a b =
      if x < y then
        .error (.dynContractErr
          ("Insufficient funds: have=" ++ toString x ++ ", subtract=" ++ toString y))
      else .ok (Amount.ofNat (x - y)) :=
  subtract_spec a b x y hx hy

theorem C7_witness :
    Amount.subtract ⟨"10"⟩ ⟨"3"⟩ = .ok (Amount.ofNat 7) ∧
      isErr (Amount.subtract ⟨"3"⟩ ⟨"10"⟩) = true := by
  constructor
  · have h := C7_subtract_insufficient ⟨"10"⟩ ⟨"3"⟩ 10 3 (by decide) (by decide)
    rw [if_neg (by norm_num)] at h
    exact h
  · have h := C7_subtract_insufficient ⟨"3"⟩ ⟨"10"⟩ 3 10 (by decide) (by decide)
    rw [if_pos (by norm_num)] at h
    rw [h]
    rfl

theorem parse_ok_iff (a : Amount) (v : Nat) :
    a.parse = .ok v ↔ parseU128String a.val = some v := by
  unfold Amount.parse
  cases h : parseU128String a.val <;> simp

theorem parseU128String_eq_some (s : String) (v : Nat) :
    parseU128String s = some v ↔
      ∃ ds, (s.data = ds ∨ s.data = '+' :: ds) ∧ ds ≠ [] ∧ ds.all Char.isDigit = true ∧
        digitsVal ds = v ∧ v < 2 ^ 128 := by
  obtain ⟨sdata⟩ := s
  constructor
  · intro h
    cases sdata with
    | nil => exact absurd h (by simp [parseU128String])
    | cons c rest =>
      by_cases hc : c = '+'
      · subst hc
        have h' : (if rest = [] then none
            else if rest.all Char.isDigit = true then
              (if digitsVal rest < 2 ^ 128 then some (digitsVal rest) else none)
            else none) = some v := h
        by_cases h1 : rest = []
        · rw [if_pos h1] at h'
          cases h'
        · rw [if_neg h1] at h'
          by_cases h2 : rest.all Char.isDigit = true
          · rw [if_pos h2] at h'
            by_cases h3 : digitsVal rest < 2 ^ 128
            · rw [if_pos h3] at h'
              have hval : digitsVal rest = v := by simpa using h'
              exact ⟨rest, Or.inr rfl, h1, h2, hval, hval ▸ h3⟩
            · rw [if_neg h3] at h'
              cases h'
          · rw [if_neg h2] at h'
            cases h'
      · have h' : (if (c :: rest).all Char.isDigit = true then
            (if digitsVal (c :: rest) < 2 ^ 128 then some (digitsVal (c :: rest)) else none)
            else none) = some v := by
          have heq : parseU128String ⟨c :: rest⟩ =
              (if (c :: rest).all Char.isDigit = true then
                (if digitsVal (c :: rest) < 2 ^ 128 then some (digitsVal (c :: rest)) else none)
                else none) := by
            unfold parseU128String
            simp only [hc, if_false]
          rw [← heq]
          exact h
        by_cases h2 : (c :: rest).all Char.isDigit = true
        · rw [if_pos h2] at h'
          by_cases h3 : digitsVal (c :: rest) < 2 ^ 128
          · rw [if_pos h3] at h'
            have hval : digitsVal (c :: rest) = v := by simpa using h'
            exact ⟨c :: rest, Or.inl rfl, by simp, h2, hval, hval ▸ h3⟩
          · rw [if_neg h3] at h'
            cases h'
        · rw [if_neg h2] at h'
          cases h'
  · rintro ⟨ds, hds, hne, hdig, hval, hlt⟩
    rcases hds with h | h
    · have hs : String.mk sdata = String.mk ds := by rw [show sdata = ds from h]
      rw [hs]
      rw [parseU128String_digits ds hne hdig (hval ▸ hlt), hval]
    · have hs : String.mk sdata = String.mk ('+' :: ds) := by rw [show sdata = '+' :: ds from h]
      rw [hs]
      show (if ds = [] then none
          else if ds.all Char.isDigit = true then
            (if digitsVal ds < 2 ^ 128 then some (digitsVal ds) else none)
          else none) = some v
      rw [if_neg hne, if_pos hdig, if_pos (hval ▸ hlt), hval]

/-- Claim C6: corrected.  `Amount::parse` (Rust `str::parse::<u128>`) succeeds
with value `v` exactly when the text is a non-empty decimal digit string —
optionally preceded by a single leading `+`, which Rust's unsigned parser
accepts — whose value `v` is below `2 ^ 128`; it fails on the empty string, on
a leading `-`, on any other non-digit character, and on out-of-range values;
leading zeros are accepted. -/
theorem C6_parse_characterization (s : String) (v : Nat) :
    Amount.parse ⟨s⟩ = .ok v ↔
      ∃ ds, (s.data = ds ∨ s.data = '+' :: ds) ∧ ds ≠ [] ∧ ds.all Char.isDigit = true ∧
        digitsVal ds = v ∧ v < 2 ^ 128 := by
  rw [parse_ok_iff]
  exact parseU128String_eq_some s v

theorem C6_counterexample :
    Amount.parse ⟨"+7"⟩ = .ok 7 ∧ Amount.parse ⟨""⟩ ≠ .ok 7 ∧
      Amount.parse ⟨"-7"⟩ = .error (.contractErr "Error while parsing string to u128") := by
  refine ⟨by decide, by decide, by decide⟩

/-- Claim C8: confirmed.  For any prior store, `try_approve` with a valid
amount succeeds and unconditionally overwrites the stored `(owner, spender)`
allowance with exactly that amount (full replace, including reducing to
zero), touching no balance and no other allowance pair; and approving the
same amount twice in a row produces exactly the same result and store as
approving it once (idempotence). -/
theorem C8_approve_overwrites (st : Store) (owner spender : Addr) (amt : Amount) (u : Unit)
    (hv : amt.validate = .ok u) :
    (try_approve st owner spender amt).1 = .ok (response_with_log "approve successful") ∧
      queryAllowance (try_approve st owner spender amt).2 owner spender = amt ∧
      (try_approve st owner spender amt).2.balances = st.balances ∧
      (∀ o s : Addr, (o, s) ≠ (owner, spender) →
        queryAllowance (try_approve st owner spender amt).2 o s = queryAllowance st o s) ∧
      try_approve (try_approve st owner spender amt).2 owner spender amt =
        try_approve st owner spender amt := by
  obtain ⟨⟩ := u
  have hap : try_approve st owner spender amt =
      (.ok (response_with_log "approve successful"), allowancesSave st owner spender amt) := by
    simp only [try_approve, hv]
  rw [hap]
  refine ⟨rfl, ?_, rfl, ?_, ?_⟩
  · unfold queryAllowance allowancesSave
    simp [lookupA_insertA_self]
  · intro o s hne
    unfold queryAllowance allowancesSave
    simp only
    rw [lookupA_insertA_ne _ _ _ _ (fun hEq => hne (by rw [hEq]))]
  · simp only [try_approve, hv]
    unfold allowancesSave
    simp [insertA_idem]

theorem C8_witness :
    (try_approve Store.empty "A" "B" ⟨"42"⟩).1 = .ok (response_with_log "approve successful") ∧
      queryAllowance (try_approve Store.empty "A" "B" ⟨"42"⟩).2 "A" "B" = ⟨"42"⟩ ∧
      try_approve (try_approve Store.empty "A" "B" ⟨"42"⟩).2 "A" "B" ⟨"42"⟩ =
        try_approve Store.empty "A" "B" ⟨"42"⟩ := by
  have h := C8_approve_overwrites Store.empty "A" "B" ⟨"42"⟩ () (by decide)
  exact ⟨h.1, h.2.1, h.2.2.2.2⟩

/-- Claim C4: confirmed against a spec-modelled burn handler (the snapshot
providing `ExecuteMsg::Burn` is present in the repository only through its
integration tests; see `try_burn`).  With the caller's stored balance parsing
to `b` and the request amount to `v`: if `v ≤ b` the burn succeeds and debits
exactly the caller (new balance `b - v`, every other balance and the whole
allowance table untouched); if `b < v` it fails with the `InsufficientFunds`
error and leaves the store exactly unchanged. -/
theorem C4_burn (st : Store) (caller : Addr) (amt : Amount) (b v : Nat)
    (hb : (queryBalance st caller).parse = .ok b) (hv : amt.parse = .ok v) :
    (v ≤ b →
      try_burn st caller amt =
        (.ok (response_with_log "burn successful"),
          balancesSave st caller (Amount.ofNat (b - v))) ∧
      balVal (balancesSave st caller (Amount.ofNat (b - v))) caller = b - v ∧
      (∀ a, a ≠ caller →
        queryBalance (balancesSave st caller (Amount.ofNat (b - v))) a = queryBalance st a) ∧
      (balancesSave st caller (Amount.ofNat (b - v))).allowances = st.allowances) ∧
    (b < v →
      try_burn st caller amt =
        (.error (.dynContractErr
          ("Insufficient funds: have=" ++ toString b ++ ", subtract=" ++ toString v)), st)) := by
  have hq : queryBalance st caller = (lookupA st.balances caller).getD Amount.default := rfl
  have hsub := subtract_spec (queryBalance st caller) amt b v hb hv
  have hblt : b < 2 ^ 128 := parse_lt _ _ hb
  constructor
  · intro hle
    rw [if_neg (by omega)] at hsub
    rw [hq] at hsub
    constructor
    · simp only [try_burn, balancesUpdate, hsub]
    constructor
    · unfold balVal queryBalance balancesSave
      simp only [lookupA_insertA_self, Option.getD_some]
      exact amtVal_ofNat (b - v) (by omega)
    constructor
    · intro a hne
      unfold queryBalance balancesSave
      simp only
      rw [lookupA_insertA_ne _ _ _ _ (fun hEq => hne hEq.symm)]
    · rfl
  · intro hlt
    rw [if_pos hlt] at hsub
    rw [hq] at hsub
    simp only [try_burn, balancesUpdate, hsub]

theorem C4_witness :
    try_burn ⟨[("A", ⟨"10"⟩)], [], none, none⟩ "A" ⟨"1"⟩ =
      (.ok (response_with_log "burn successful"),
        balancesSave ⟨[("A", ⟨"10"⟩)], [], none, none⟩ "A" (Amount.ofNat 9)) ∧
      balVal (balancesSave ⟨[("A", ⟨"10"⟩)], [], none, none⟩ "A" (Amount.ofNat 9)) "A" = 9 ∧
      try_burn (balancesSave ⟨[("A", ⟨"10"⟩)], [], none, none⟩ "A" (Amount.ofNat 9)) "A" ⟨"1000"⟩ =
        (.error (.dynContractErr "Insufficient funds: have=9, subtract=1000"),
          balancesSave ⟨[("A", ⟨"10"⟩)], [], none, none⟩ "A" (Amount.ofNat 9)) := by
  have h1 := C4_burn ⟨[("A", ⟨"10"⟩)], [], none, none⟩ "A" ⟨"1"⟩ 10 1 (by decide) (by decide)
  have h2 := C4_burn (balancesSave ⟨[("A", ⟨"10"⟩)], [], none, none⟩ "A" (Amount.ofNat 9)) "A"
    ⟨"1000"⟩ 9 1000 (by decide) (by decide)
  refine ⟨(h1.1 (by norm_num)).1, (h1.1 (by norm_num)).2.1, ?_⟩
  have h2' := h2.2 (by norm_num)
  simpa using h2'

/-- Claim C9: confirmed.  A self-transfer `transfer(c, c, v)` with a valid
amount `v ≤ balance_of(c)` succeeds — the debit-then-credit order does not
spuriously fail even when `v` equals the entire balance, because the credit
reads the freshly debited balance and `(b - v) + v = b < 2 ^ 128` cannot
overflow — and it leaves the value of every balance in the ledger unchanged
and the allowance table untouched. -/
theorem C9_self_transfer (st : Store) (c : Addr) (amt : Amount) (b v : Nat)
    (hb : (queryBalance st c).parse = .ok b) (hv : amt.parse = .ok v) (hle : v ≤ b) :
    (try_transfer st c c amt).1 = .ok (response_with_log "transfer successful") ∧
      (∀ a, balVal (try_transfer st c c amt).2 a = balVal st a) ∧
      (try_transfer st c c amt).2.allowances = st.allowances := by
  have hq : queryBalance st c = (lookupA st.balances c).getD Amount.default := rfl
  have hblt : b < 2 ^ 128 := parse_lt _ _ hb
  have hval : amt.validate = .ok () := validate_ok amt v hv
  have hsub := subtract_spec (queryBalance st c) amt b v hb hv
  rw [if_neg (by omega)] at hsub
  rw [hq] at hsub
  have hdeb : balancesUpdate st c (fun current => current.subtract amt) =
      (.ok (Amount.ofNat (b - v)), balancesSave st c (Amount.ofNat (b - v))) := by
    simp only [balancesUpdate, hsub]
  have hcur1 : (lookupA (balancesSave st c (Amount.ofNat (b - v))).balances c).getD Amount.default
      = Amount.ofNat (b - v) := by
    unfold balancesSave
    simp [lookupA_insertA_self]
  have hadd := add_spec (Amount.ofNat (b - v)) amt (b - v) v (parse_ofNat _ (by omega)) hv
  rw [if_pos (by omega)] at hadd
  have hbv : b - v + v = b := by omega
  rw [hbv] at hadd
  have hcred : balancesUpdate (balancesSave st c (Amount.ofNat (b - v))) c
      (fun current => current.add amt) =
      (.ok (Amount.ofNat b),
        balancesSave (balancesSave st c (Amount.ofNat (b - v))) c (Amount.ofNat b)) := by
    simp only [balancesUpdate, hcur1, hadd]
  have hpt : perform_transfer st c c amt =
      (.ok (), balancesSave (balancesSave st c (Amount.ofNat (b - v))) c (Amount.ofNat b)) := by
    simp only [perform_transfer, hdeb, hcred]
  have htt : try_transfer st c c amt =
      (.ok (response_with_log "transfer successful"),
        balancesSave (balancesSave st c (Amount.ofNat (b - v))) c (Amount.ofNat b)) := by
    simp only [try_transfer, hval, hpt]
  rw [htt]
  refine ⟨rfl, ?_, rfl⟩
  intro a
  by_cases ha : a = c
  · subst ha
    unfold balVal queryBalance balancesSave
    simp only [lookupA_insertA_self, Option.getD_some]
    rw [amtVal_ofNat b hblt]
    exact (parse_amtVal _ _ hb).symm
  · unfold balVal queryBalance balancesSave
    simp only
    rw [lookupA_insertA_ne _ _ _ _ (fun hEq => ha hEq.symm),
      lookupA_insertA_ne _ _ _ _ (fun hEq => ha hEq.symm)]

theorem C9_witness :
    (try_transfer ⟨[("A", ⟨"10"⟩)], [], none, none⟩ "A" "A" ⟨"10"⟩).1 =
      .ok (response_with_log "transfer successful") ∧
      balVal (try_transfer ⟨[("A", ⟨"10"⟩)], [], none, none⟩ "A" "A" ⟨"10"⟩).2 "A" = 10 := by
  have h := C9_self_transfer ⟨[("A", ⟨"10"⟩)], [], none, none⟩ "A" ⟨"10"⟩ 10 10
    (by decide) (by decide) (by norm_num)
  refine ⟨h.1, ?_⟩
  rw [h.2.1 "A"]
  decide

/-- Claim C1: corrected.  `try_transfer_from` is not atomic at the engine
level: when the allowance consumption succeeds (producing the decremented
allowance `out`) but the subsequent debit of the owner fails, the call returns
the debit error with the store holding the already-saved decremented
allowance — the decrement is not rolled back by the engine (balances,
constants and total supply are untouched; any rollback is left to the host's
transactional storage). -/
theorem C1_no_rollback (st : Store) (spender owner rcpt : Addr) (amt : Amount)
    (out : Amount) (e : Err)
    (hcons : ((lookupA st.allowances (owner, spender)).getD Amount.default).subtract amt =
      .ok out)
    (hdeb : ((lookupA st.balances owner).getD Amount.default).subtract amt = .error e) :
    try_transfer_from st spender owner rcpt amt =
      (.error e, allowancesSave st owner spender out) := by
  have hau : allowancesUpdate st owner spender (fun current => current.subtract amt) =
      (.ok out, allowancesSave st owner spender out) := by
    simp only [allowancesUpdate, hcons]
  have hq : (lookupA (allowancesSave st owner spender out).balances owner).getD Amount.default =
      (lookupA st.balances owner).getD Amount.default := rfl
  have hbu : balancesUpdate (allowancesSave st owner spender out) owner
      (fun current => current.subtract amt) = (.error e, allowancesSave st owner spender out) := by
    simp only [balancesUpdate, hq, hdeb]
  have hpt : perform_transfer (allowancesSave st owner spender out) owner rcpt amt =
      (.error e, allowancesSave st owner spender out) := by
    simp only [perform_transfer, hbu]
  simp only [try_transfer_from, hau, hpt]

theorem C1_witness :
    try_transfer_from ⟨[], [(("o", "s"), ⟨"5"⟩)], none, none⟩ "s" "o" "r" ⟨"3"⟩ =
      (.error (.dynContractErr "Insufficient funds: have=0, subtract=3"),
        allowancesSave ⟨[], [(("o", "s"), ⟨"5"⟩)], none, none⟩ "o" "s" (Amount.ofNat 2)) := by
  have h := C1_no_rollback ⟨[], [(("o", "s"), ⟨"5"⟩)], none, none⟩ "s" "o" "r" ⟨"3"⟩
    (Amount.ofNat 2) (.dynContractErr "Insufficient funds: have=0, subtract=3")
    (by decide) (by decide)
  exact h

theorem C1_counterexample :
    isErr (try_transfer_from ⟨[], [(("owner", "spender"), ⟨"5"⟩)], none, none⟩
        "spender" "owner" "rcpt" ⟨"3"⟩).1 = true ∧
      (try_transfer_from ⟨[], [(("owner", "spender"), ⟨"5"⟩)], none, none⟩
          "spender" "owner" "rcpt" ⟨"3"⟩).2 ≠
        ⟨[], [(("owner", "spender"), ⟨"5"⟩)], none, none⟩ ∧
      queryAllowance (try_transfer_from ⟨[], [(("owner", "spender"), ⟨"5"⟩)], none, none⟩
          "spender" "owner" "rcpt" ⟨"3"⟩).2 "owner" "spender" = ⟨"2"⟩ := by
  refine ⟨by decide, by decide, by decide⟩

/-- Claim C3: corrected.  `init` iterates over the initial balances FIRST —
parsing each amount and saving each row as it goes — and only afterwards
validates name, symbol and decimals.  When any constants check fails (here:
invalid name, invalid symbol, or decimals above 18) the call errors, but the
store keeps every balance row the loop already wrote; only `constants` and
`total_supply` are left unwritten.  The batch is therefore not atomic:
a failing initialization does not leave the store empty. -/
theorem C3_init_writes_before_validating (st : Store) (msg : InitMsg) (total : Nat) (stL : Store)
    (hloop : initLoop st 0 msg.initial_balances = (.ok total, stL))
    (hbad : is_valid_name msg.name = false ∨ is_valid_symbol msg.symbol = false ∨
      18 < msg.decimals) :
    isErr (init st msg).1 = true ∧ (init st msg).2 = stL ∧
      stL.constants = st.constants ∧ stL.totalSupply = st.totalSupply ∧
      stL.allowances = st.allowances := by
  have hf := initLoop_frame msg.initial_balances st 0
  rw [hloop] at hf
  refine ⟨?_, ?_, hf.2.1, hf.2.2, hf.1⟩ <;>
  · simp only [init, hloop]
    by_cases h1 : is_valid_name msg.name
    · by_cases h2 : is_valid_symbol msg.symbol
      · have h3 : 18 < msg.decimals := by
          rcases hbad with h | h | h
          · rw [h1] at h
            cases h
          · rw [h2] at h
            cases h
          · exact h
        simp [h1, h2, h3, isErr]
      · simp [h1, h2, isErr]
    · simp [h1, isErr]

theorem C3_witness :
    isErr (init Store.empty ⟨"Ether", "eth", 18, [⟨"A", ⟨"5"⟩⟩]⟩).1 = true ∧
      (init Store.empty ⟨"Ether", "eth", 18, [⟨"A", ⟨"5"⟩⟩]⟩).2 =
        ⟨[("A", ⟨"5"⟩)], [], none, none⟩ := by
  have h := C3_init_writes_before_validating Store.empty ⟨"Ether", "eth", 18, [⟨"A", ⟨"5"⟩⟩]⟩ 5
    ⟨[("A", ⟨"5"⟩)], [], none, none⟩ (by decide) (Or.inr (Or.inl (by decide)))
  exact ⟨h.1, h.2.1⟩

theorem C3_counterexample :
    isErr (init Store.empty ⟨"Ether", "eth", 18, [⟨"B", ⟨"7"⟩⟩]⟩).1 = true ∧
      (init Store.empty ⟨"Ether", "eth", 18, [⟨"B", ⟨"7"⟩⟩]⟩).2.balances = [("B", ⟨"7"⟩)] ∧
      isErr (init Store.empty ⟨"Coin", "COIN", 19, [⟨"B", ⟨"7"⟩⟩]⟩).1 = true ∧
      (init Store.empty ⟨"Coin", "COIN", 19, [⟨"B", ⟨"7"⟩⟩]⟩).2.balances = [("B", ⟨"7"⟩)] := by
  refine ⟨by decide, by decide, by decide, by decide⟩

theorem initLoop_ok_exists (rows : List InitialBalance) :
    ∀ st total, (∀ row ∈ rows, ∃ v, row.amount.parse = .ok v) →
      total + rowsTotal rows < 2 ^ 128 →
      ∃ t st', initLoop st total rows = (.ok t, st') := by
  induction rows with
  | nil =>
    intro st total _ _
    exact ⟨total, st, rfl⟩
  | cons row rest ih =>
    intro st total hval hfit
    obtain ⟨v, hv⟩ := hval row (by simp)
    have hamt : amtVal row.amount = v := parse_amtVal _ _ hv
    have hcons : rowsTotal (row :: rest) = amtVal row.amount + rowsTotal rest := by
      simp [rowsTotal]
    have hadd : u128Add total v = .ok (total + v) := by
      unfold u128Add
      rw [if_pos (by omega)]
    have hfit' : total + v + rowsTotal rest < 2 ^ 128 := by omega
    obtain ⟨t, st', hrest⟩ := ih (balancesSave st row.address row.amount) (total + v)
      (fun r hr => hval r (List.mem_cons_of_mem _ hr)) hfit'
    exact ⟨t, st', by simp only [initLoop, hv, hadd, hrest]⟩

/-- Claim C10: corrected.  When the initial-balances list duplicates an
address (all rows parseable, constants valid, total below `2 ^ 128`), `init`
succeeds; the ledger then records only the LAST listed amount for each
address while the stored total supply is the sum of EVERY listed amount, so
the recorded total supply is greater than or equal to the sum of account
balances — strictly greater exactly when some overwritten occurrence is
nonzero (with all-zero duplicates the two coincide, refuting the claim's
strict "exceeds"). -/
theorem C10_duplicate_addresses (msg : InitMsg)
    (hname : is_valid_name msg.name = true) (hsym : is_valid_symbol msg.symbol = true)
    (hdec : msg.decimals ≤ 18)
    (hrows : ∀ row ∈ msg.initial_balances, ∃ v, row.amount.parse = .ok v)
    (hfit : rowsTotal msg.initial_balances < 2 ^ 128) :
    ∃ st1, init Store.empty msg = (.ok Response.default, st1) ∧
      (∀ a, lookupA st1.balances a =
        (match lastAmount msg.initial_balances a with
         | some x => some x
         | none => none)) ∧
      storedTotalSupply st1 = rowsTotal msg.initial_balances ∧
      sumBal st1 ≤ storedTotalSupply st1 := by
  obtain ⟨t, stL, hl⟩ :=
    initLoop_ok_exists msg.initial_balances Store.empty 0 hrows (by simpa using hfit)
  have ht : t = rowsTotal msg.initial_balances := by
    have h1 := initLoop_total msg.initial_balances Store.empty 0 t stL hl
    omega
  have hbound : t < 2 ^ 128 := by omega
  refine ⟨{ stL with
            constants := some ⟨msg.name, msg.symbol, msg.decimals⟩
            totalSupply := some (Amount.ofNat t) }, ?_, ?_, ?_, ?_⟩
  · simp only [init, hl]
    simp [hname, hsym, show ¬ 18 < msg.decimals by omega]
  · intro a
    have hlk := initLoop_lookup msg.initial_balances Store.empty 0 t stL hl a
    cases hla : lastAmount msg.initial_balances a with
    | some x =>
      rw [hla] at hlk
      simpa using hlk
    | none =>
      rw [hla] at hlk
      simpa using hlk
  · unfold storedTotalSupply
    simp only [Option.getD_some]
    rw [amtVal_ofNat t hbound, ht]
  · have hle := initLoop_sum_le msg.initial_balances Store.empty 0 t stL hl
    have hsum0 : sumBal Store.empty = 0 := rfl
    have hstt : storedTotalSupply { stL with
        constants := some ⟨msg.name, msg.symbol, msg.decimals⟩
        totalSupply := some (Amount.ofNat t) } = t := by
      unfold storedTotalSupply
      simp only [Option.getD_some]
      exact amtVal_ofNat t hbound
    rw [hstt]
    have hsb : sumBal { stL with
        constants := some ⟨msg.name, msg.symbol, msg.decimals⟩
        totalSupply := some (Amount.ofNat t) } = sumBal stL := rfl
    omega

theorem C10_witness :
    ∃ st1, init Store.empty ⟨"My Token", "TOK", 5, [⟨"A", ⟨"1"⟩⟩, ⟨"A", ⟨"2"⟩⟩]⟩ =
        (.ok Response.default, st1) ∧
      lookupA st1.balances "A" = some ⟨"2"⟩ ∧
      storedTotalSupply st1 = 3 ∧ sumBal st1 ≤ storedTotalSupply st1 := by
  obtain ⟨st1, hinit, hlk, htot, hle⟩ :=
    C10_duplicate_addresses ⟨"My Token", "TOK", 5, [⟨"A", ⟨"1"⟩⟩, ⟨"A", ⟨"2"⟩⟩]⟩
      (by decide) (by decide) (by norm_num)
      (by
        intro row hr
        simp at hr
        rcases hr with h | h
        · exact ⟨1, by rw [h]; decide⟩
        · exact ⟨2, by rw [h]; decide⟩)
      (by decide)
  refine ⟨st1, hinit, ?_, ?_, hle⟩
  · rw [hlk "A"]
    decide
  · rw [htot]
    decide

theorem C10_counterexample :
    isOk (init Store.empty ⟨"My Token", "TOK", 5, [⟨"A", ⟨"0"⟩⟩, ⟨"A", ⟨"0"⟩⟩]⟩).1 = true ∧
      storedTotalSupply
        (init Store.empty ⟨"My Token", "TOK", 5, [⟨"A", ⟨"0"⟩⟩, ⟨"A", ⟨"0"⟩⟩]⟩).2 = 0 ∧
      sumBal (init Store.empty ⟨"My Token", "TOK", 5, [⟨"A", ⟨"0"⟩⟩, ⟨"A", ⟨"0"⟩⟩]⟩).2 = 0 := by
  refine ⟨by decide, by decide, by decide⟩

/-- Claim C2: corrected.  For every successful initialization whose
initial-balance ADDRESSES ARE DISTINCT (the correction: with a duplicated
address, the stored total supply over-counts the ledger from the very start —
see the counterexample), and every sequence of `transfer` / `transfer_from` /
`burn` operations applied to the resulting store, the sum of all account
balances plus the total successfully burned equals the total supply recorded
at initialization; moreover every stored balance remains a well-formed
`u128` decimal string (hence no balance is ever negative). -/
theorem C2_conservation (msg : InitMsg) (ops : List Op) (r : Response) (st1 : Store)
    (hinit : init Store.empty msg = (.ok r, st1))
    (hnodup : (msg.initial_balances.map InitialBalance.address).Nodup) :
    sumBal (run st1 ops).1 + (run st1 ops).2 = storedTotalSupply st1 ∧
      ledgerOK (run st1 ops).1 := by
  obtain ⟨total, stL, hl, -, -, -, -, hst1⟩ := init_ok_parts Store.empty msg r st1 hinit
  have hOKe : ledgerOK Store.empty := by
    intro p hp
    simp [Store.empty] at hp
  have hOKL : ledgerOK stL := initLoop_ledgerOK _ Store.empty 0 total stL hl hOKe
  have hfresh : ∀ row ∈ msg.initial_balances, lookupA (Store.empty).balances row.address = none :=
    fun row _ => rfl
  have hsum : sumBal stL = sumBal Store.empty + rowsTotal msg.initial_balances :=
    initLoop_sum_nodup _ Store.empty 0 total stL hl hnodup hfresh
  have htot : total = 0 + rowsTotal msg.initial_balances :=
    initLoop_total _ Store.empty 0 total stL hl
  have hbound : total < 2 ^ 128 := initLoop_bound _ Store.empty 0 total stL hl (by norm_num)
  have hsum0 : sumBal Store.empty = 0 := rfl
  have hsumL : sumBal stL = total := by omega
  have hOK1 : ledgerOK st1 := by
    rw [hst1]
    exact fun p hp => hOKL p hp
  have hsum1 : sumBal st1 = total := by
    rw [hst1]
    exact hsumL
  have hstt : storedTotalSupply st1 = total := by
    rw [hst1]
    unfold storedTotalSupply
    simp only [Option.getD_some]
    exact amtVal_ofNat total hbound
  have hrc := run_conserved ops st1 hOK1 (by omega)
  refine ⟨?_, hrc.1⟩
  rw [hstt]
  omega

theorem C2_witness :
    sumBal (run ⟨[("A", ⟨"11"⟩), ("B", ⟨"22"⟩), ("C", ⟨"33"⟩)], [],
          some ⟨"My Token", "TOK", 5⟩, some ⟨"66"⟩⟩
        [.transfer "A" "B" ⟨"1"⟩, .burn "A" ⟨"1"⟩, .transferFrom "B" "A" "C" ⟨"5"⟩]).1 +
      (run ⟨[("A", ⟨"11"⟩), ("B", ⟨"22"⟩), ("C", ⟨"33"⟩)], [],
          some ⟨"My Token", "TOK", 5⟩, some ⟨"66"⟩⟩
        [.transfer "A" "B" ⟨"1"⟩, .burn "A" ⟨"1"⟩, .transferFrom "B" "A" "C" ⟨"5"⟩]).2 = 66 := by
  have h := C2_conservation
    ⟨"My Token", "TOK", 5, [⟨"A", ⟨"11"⟩⟩, ⟨"B", ⟨"22"⟩⟩, ⟨"C", ⟨"33"⟩⟩]⟩
    [.transfer "A" "B" ⟨"1"⟩, .burn "A" ⟨"1"⟩, .transferFrom "B" "A" "C" ⟨"5"⟩]
    Response.default
    ⟨[("A", ⟨"11"⟩), ("B", ⟨"22"⟩), ("C", ⟨"33"⟩)], [],
      some ⟨"My Token", "TOK", 5⟩, some ⟨"66"⟩⟩
    (by decide) (by decide)
  exact h.1.trans (by decide)

theorem C2_counterexample :
    isOk (init Store.empty ⟨"My Token", "TOK", 5, [⟨"A", ⟨"1"⟩⟩, ⟨"A", ⟨"2"⟩⟩]⟩).1 = true ∧
      run (init Store.empty ⟨"My Token", "TOK", 5, [⟨"A", ⟨"1"⟩⟩, ⟨"A", ⟨"2"⟩⟩]⟩).2 [] =
        ((init Store.empty ⟨"My Token", "TOK", 5, [⟨"A", ⟨"1"⟩⟩, ⟨"A", ⟨"2"⟩⟩]⟩).2, 0) ∧
      sumBal (init Store.empty ⟨"My Token", "TOK", 5, [⟨"A", ⟨"1"⟩⟩, ⟨"A", ⟨"2"⟩⟩]⟩).2 = 2 ∧
      storedTotalSupply
        (init Store.empty ⟨"My Token", "TOK", 5, [⟨"A", ⟨"1"⟩⟩, ⟨"A", ⟨"2"⟩⟩]⟩).2 = 3 := by
  refine ⟨by decide, by decide, by decide, by decide⟩
